import Mathlib

/-!
Verification of the qram-tools protocol core against its specification.

Byte sequences are modelled as `List Nat` (each entry one octet).  The gzip
backends (`CompressionStream` / pako) are external collaborators and are
abstracted as a parameter `gz : List Nat → Option (List Nat)`; `none` models
the case where every backend failed.

JavaScript's floating-point comparison `envelopeSize / originalSize > 0.95`
is embedded as the exact rational comparison `20 * envelopeSize > 19 *
originalSize`: for the integer sizes involved (≤ 2^32) the gap between any
quotient e/o ≠ 19/20 and 19/20 is at least 1/(20·o), far above the double
rounding error, and IEEE-754 rounding is monotone, so the double comparison
and the exact rational comparison decide identically.
-/

namespace Qram

/-- Big-endian 32-bit read at offset `off`, as in `DataView.getUint32(off, false)`.
Out-of-range reads default to 0 (never reached on well-formed inputs). -/
def be32 (l : List Nat) (off : Nat) : Nat :=
  l.getD off 0 * 16777216 + l.getD (off + 1) 0 * 65536 +
    l.getD (off + 2) 0 * 256 + l.getD (off + 3) 0

/-- Big-endian 32-bit write: the four bytes of `n % 2^32`, most significant
first, as produced by `DataView.setUint32(_, n, false)`. -/
def be32Bytes (n : Nat) : List Nat :=
  [n % 4294967296 / 16777216, n % 16777216 / 65536, n % 65536 / 256, n % 256]

/-- Bytewise XOR of two equal-length byte strings. -/
def xorBytes (a b : List Nat) : List Nat :=
  List.zipWith (fun x y => Nat.xor x y) a b

/-- The 5-byte compression-envelope magic, ASCII QRAMC. -/
def magicC : List Nat := [0x51, 0x52, 0x41, 0x4D, 0x43]

/-- The 5-byte file-envelope magic, ASCII QRAMF. -/
def magicF : List Nat := [0x51, 0x52, 0x41, 0x4D, 0x46]

/-! ## Compression envelope, variant A: qram-compress.js -/

/-- Result record of `maybeCompress`, mirroring the JS object
`{ data, compressed, originalSize, sentSize }`. -/
structure CompressResult where
  data : List Nat
  compressed : Bool
  originalSize : Nat
  sentSize : Nat
  deriving DecidableEq, Repr

/-- Build the QRAMC envelope: magic, algo byte 1 (gzip), original length as
big-endian u32, then the compressed bytes (qram-compress.js `_buildEnvelope`,
identical bytes to compress.js). -/
def buildEnvelope (originalLen : Nat) (compressed : List Nat) : List Nat :=
  magicC ++ [1] ++ be32Bytes originalLen ++ compressed

/-- Embeds qram-compress.js `isCompressed`: at least 10 bytes and QRAMC prefix. -/
def isCompressed (d : List Nat) : Bool :=
  if d.length < 10 then false else decide (d.take 5 = magicC)

/-- Embeds qram-compress.js `maybeCompress`.  The JS skip conditions
`ratio > 0.95 || saved < 50` are embedded exactly as
`20 * envelopeSize > 19 * originalSize || originalSize < envelopeSize + 50`
(the latter is the integer form of `originalSize - envelopeSize < 50`,
which in JS may go negative). -/
def maybeCompress (gz : List Nat → Option (List Nat)) (payload : List Nat) :
    CompressResult :=
  let originalSize := payload.length
  if originalSize < 50 then
    ⟨payload, false, originalSize, originalSize⟩
  else
    match gz payload with
    | none => ⟨payload, false, originalSize, originalSize⟩
    | some c =>
      let envelopeSize := 10 + c.length
      if 20 * envelopeSize > 19 * originalSize ∨ originalSize < envelopeSize + 50 then
        ⟨payload, false, originalSize, originalSize⟩
      else
        ⟨buildEnvelope originalSize c, true, originalSize, envelopeSize⟩

/-! ## Compression envelope, variant B: compress.js -/

/-- Embeds compress.js `compress`.  Note the strict skip condition
`envelopeLen / data.length >= 0.95`, embedded as `20 * e ≥ 19 * o`. -/
def compress (gz : List Nat → Option (List Nat)) (data : List Nat) : List Nat :=
  if data.length < 50 then data
  else
    match gz data with
    | none => data
    | some c =>
      let envelopeLen := 10 + c.length
      if data.length < envelopeLen + 50 ∨ 20 * envelopeLen ≥ 19 * data.length then
        data
      else
        buildEnvelope data.length c

/-- Error cases surfaced by the decompression entry points. -/
inductive DecompressErr where
  | unknownAlgo (algo : Nat)
  | backendUnavailable
  | lengthMismatch (expected got : Nat)
  deriving DecidableEq, Repr

/-- Result record of `maybeDecompress`: the JS object
`{ data, wasCompressed, wireSize }` plus `warned`, which records whether the
non-fatal `console.warn` length-mismatch branch fired. -/
structure DecompressResult where
  data : List Nat
  wasCompressed : Bool
  wireSize : Nat
  warned : Bool
  deriving DecidableEq, Repr

/-- Embeds qram-compress.js `maybeDecompress`; `gunzip` abstracts the gzip
backends (native then pako), `none` meaning every backend failed. -/
def maybeDecompress (gunzip : List Nat → Option (List Nat)) (d : List Nat) :
    Except DecompressErr DecompressResult :=
  if isCompressed d = false then
    Except.ok ⟨d, false, d.length, false⟩
  else
    let algo := d.getD 5 0
    let origLen := be32 d 6
    let payload := d.drop 10
    if algo ≠ 1 then Except.error (DecompressErr.unknownAlgo algo)
    else
      match gunzip payload with
      | none => Except.error DecompressErr.backendUnavailable
      | some out => Except.ok ⟨out, true, d.length, decide (out.length ≠ origLen)⟩

/-- Embeds compress.js `decompress`: same envelope checks, but a declared
length mismatch is a thrown error rather than a warning. -/
def decompress (gunzip : List Nat → Option (List Nat)) (d : List Nat) :
    Except DecompressErr (List Nat) :=
  if d.length < 10 then Except.ok d
  else if d.take 5 ≠ magicC then Except.ok d
  else if d.getD 5 0 ≠ 1 then Except.error (DecompressErr.unknownAlgo (d.getD 5 0))
  else
    match gunzip (d.drop 10) with
    | none => Except.error DecompressErr.backendUnavailable
    | some out =>
      if out.length ≠ be32 d 6 then
        Except.error (DecompressErr.lengthMismatch (be32 d 6) out.length)
      else Except.ok out

/-! ## File envelope (app.js `buildFilePayload` / `parseFilePayload`) -/

/-- Embeds app.js `buildFilePayload`.  Filenames are modelled by their UTF-8
byte encodings; `setUint16(5, nameBytes.length, false)` stores the length
modulo 2^16, big-endian. -/
def buildFilePayload (nameBytes fileBytes : List Nat) : List Nat :=
  magicF ++ [nameBytes.length % 65536 / 256, nameBytes.length % 256] ++
    nameBytes ++ fileBytes

/-- Big-endian u16 name-length field of a candidate file envelope
(bytes 5..7). -/
def fileNameLen (bytes : List Nat) : Nat :=
  bytes.getD 5 0 * 256 + bytes.getD 6 0

/-- Embeds app.js `parseFilePayload`: `none` on a short input, missing QRAMF
magic, or a declared name length overrunning the input. -/
def parseFilePayload (bytes : List Nat) : Option (List Nat × List Nat) :=
  if bytes.length < 7 then none
  else if bytes.take 5 ≠ magicF then none
  else
    let nameLen := fileNameLen bytes
    if bytes.length < 7 + nameLen then none
    else some ((bytes.drop 7).take nameLen, bytes.drop (7 + nameLen))

/-- Embeds index.html `isFileTransfer` (the CONFIG-based decoder app): a file
transfer requires at least 8 bytes and the QRAMF magic prefix. -/
def isFileTransfer (data : List Nat) : Bool :=
  if data.length < 8 then false else decide (data.take 5 = magicF)

/-! ## LT decoder

Modelled from the spec: the `LTDecoder` Rust implementation is compiled to
`qram_core_bg.wasm` and only its wasm-bindgen JS glue (`qram_core.js`) is in
the repository, so the decoder below follows spec §4.5 word for word.  The
deterministic PRNG+RSD+sampler neighbor reconstruction (spec §4.1–§4.3) is
abstracted as a parameter `nbrs : Nat → Nat → Nat → List Nat` mapping
`(k, run_id, seq_num)` to the neighbor list; every theorem quantifies over
it, so the results hold for the concrete sampler whatever its constants. -/

/-- Indexed read of the decoded-flags bit array, `false` out of range (the
decoder only ever indexes in range). -/
def nthB : List Bool → Nat → Bool
  | [], _ => false
  | b :: _, 0 => b
  | _ :: t, n + 1 => nthB t n

/-- Header field `run_id`: bytes 0..4, big-endian. -/
def hdrRunId (pkt : List Nat) : Nat := be32 pkt 0

/-- Header field `k`: bytes 4..8, big-endian. -/
def hdrK (pkt : List Nat) : Nat := be32 pkt 4

/-- Header field `orig_len`: bytes 8..12, big-endian. -/
def hdrOrigLen (pkt : List Nat) : Nat := be32 pkt 8

/-- Header field `seq_num`: bytes 12..16, big-endian. -/
def hdrSeq (pkt : List Nat) : Nat := be32 pkt 12

/-- Modelled from the spec (§4.5 decoder state): session anchors, recovered
blocks with decoded flags and counter, and the unresolved packet list, each
unresolved packet a `(neighbors, data)` pair.  The block→packet index is a
navigational optimization (spec §9) kept in sync with the neighbor sets, so
it is represented implicitly by membership in the neighbor lists. -/
structure LTSession where
  runId : Nat
  k : Nat
  blockSize : Nat
  origLen : Nat
  blocks : List (List Nat)
  decoded : List Bool
  decodedCount : Nat
  unresolved : List (List Nat × List Nat)
  deriving DecidableEq, Repr

/-- Modelled from the spec: fresh session state allocated on the first packet
or on a session switch — zeroed blocks, all-false decoded flags, empty
unresolved list. -/
def initSession (runId k blockSize origLen : Nat) : LTSession :=
  ⟨runId, k, blockSize, origLen, List.replicate k (List.replicate blockSize 0),
    List.replicate k false, 0, []⟩

/-- Neighbors of the packet that are not yet decoded (spec §4.5 step 5: the
neighbor set after substituting already-decoded blocks). -/
def substituteRemaining (s : LTSession) (ns : List Nat) : List Nat :=
  ns.filter (fun i => !(nthB s.decoded i))

/-- The XOR residue after substituting every already-decoded neighbor block
into the payload (spec §4.5 step 5). -/
def substituteResidue (s : LTSession) (ns : List Nat) (payload : List Nat) :
    List Nat :=
  (ns.filter (fun i => nthB s.decoded i)).foldl
    (fun acc i => xorBytes acc (s.blocks.getD i [])) payload

/-- Modelled from the spec (§4.5 belief propagation step 3): substitute the
newly resolved block `j` with data `d` into every unresolved packet listing
it; return the surviving unresolved packets and the newly resolvable
`(block, data)` pairs, in list order. -/
def processUnresolved (j : Nat) (d : List Nat) :
    List (List Nat × List Nat) →
      List (List Nat × List Nat) × List (Nat × List Nat)
  | [] => ([], [])
  | (ns, pd) :: rest =>
    let pr := processUnresolved j d rest
    if j ∈ ns then
      let ns2 := ns.filter (fun x => x ≠ j)
      let pd2 := xorBytes pd d
      match ns2 with
      | [] => pr
      | [j2] => (pr.1, (j2, pd2) :: pr.2)
      | _ => ((ns2, pd2) :: pr.1, pr.2)
    else ((ns, pd) :: pr.1, pr.2)

/-- Modelled from the spec (§4.5 `resolve`, expressed as a work queue): pop a
`(block, data)` pair, drop it when the block is already decoded, otherwise
freeze the block and cascade through the unresolved packets.  The fuel is an
upper bound on the number of queue pops, never reached because each enqueue
permanently consumes an unresolved packet. -/
def resolveLoop : Nat → LTSession → List (Nat × List Nat) → LTSession
  | 0, s, _ => s
  | _ + 1, s, [] => s
  | fuel + 1, s, (j, d) :: rest =>
    if nthB s.decoded j then resolveLoop fuel s rest
    else
      let pu := processUnresolved j d s.unresolved
      resolveLoop fuel
        { s with
          blocks := s.blocks.set j d
          decoded := s.decoded.set j true
          decodedCount := s.decodedCount + 1
          unresolved := pu.1 }
        (rest ++ pu.2)

/-- Modelled from the spec (§4.5 step 2): keep the current session when the
header `run_id` matches, otherwise (first packet or session switch)
reinitialize from the header. -/
def selectSession (st : Option LTSession) (pkt : List Nat) : LTSession :=
  match st with
  | some s =>
    if s.runId = hdrRunId pkt then s
    else initSession (hdrRunId pkt) (hdrK pkt) (pkt.length - 16) (hdrOrigLen pkt)
  | none => initSession (hdrRunId pkt) (hdrK pkt) (pkt.length - 16) (hdrOrigLen pkt)

/-- Completion flag of a decoder: all `k` source blocks recovered. -/
def ltIsDone (st : Option LTSession) : Bool :=
  match st with
  | none => false
  | some s => decide (s.decodedCount = s.k)

/-- Modelled from the spec (§4.5 steps 3–7): process one packet against an
established session — ignore when complete, then drop / resolve / store by
the number of remaining neighbors, returning the completion flag. -/
def pushStep (nbrs : Nat → Nat → Nat → List Nat) (s : LTSession)
    (pkt : List Nat) : LTSession × Bool :=
  if s.decodedCount = s.k then (s, true)
  else
    let ns := nbrs s.k (hdrRunId pkt) (hdrSeq pkt)
    let rem := substituteRemaining s ns
    let res := substituteResidue s ns (pkt.drop 16)
    match rem with
    | [] => (s, decide (s.decodedCount = s.k))
    | [j] =>
      let s2 := resolveLoop (s.unresolved.length + s.k + 1) s [(j, res)]
      (s2, decide (s2.decodedCount = s2.k))
    | _ => ({ s with unresolved := s.unresolved ++ [(rem, res)] },
           decide (s.decodedCount = s.k))

/-- Modelled from the spec (§4.5 `push_packet`): silently reject packets
shorter than 17 bytes (header incomplete or `block_size < 1`), otherwise
select or reinitialize the session and run one decode step. -/
def pushPacket (nbrs : Nat → Nat → Nat → List Nat) (st : Option LTSession)
    (pkt : List Nat) : Option LTSession × Bool :=
  if pkt.length < 17 then (st, ltIsDone st)
  else
    let p := pushStep nbrs (selectSession st pkt) pkt
    (some p.1, p.2)

/-- Iterate `pushPacket` on the same packet `n` times, returning the final
state and the last completion flag. -/
def pushN (nbrs : Nat → Nat → Nat → List Nat) (st : Option LTSession)
    (pkt : List Nat) : Nat → Option LTSession × Bool
  | 0 => (st, ltIsDone st)
  | n + 1 => pushPacket nbrs (pushN nbrs st pkt n).1 pkt

/-- Modelled from the spec (§4.5 `get_result`): empty while incomplete,
otherwise the concatenated blocks truncated to `orig_len`. -/
def getResult (st : Option LTSession) (origLen : Nat) : List Nat :=
  match st with
  | none => []
  | some s =>
    if s.decodedCount < s.k then []
    else (s.blocks.foldr (fun b acc => b ++ acc) []).take origLen

/-! ## Decode-path session switching (app.js `scanLoop`) -/

/-- Decode-loop session state of app.js: the header anchors cached in
`decRunId` / `decOrigLen` / `decBlockSize` plus the live decoder and the
`decPkts` counter.  The decoder field models the wasm `LTDecoder` instance;
`new LTDecoder(k, blockSize, runId)` stores hints that are reset on the
first packet (spec §6), so a fresh instance is the anchor-free `none`. -/
structure ScanSession where
  runId : Nat
  k : Nat
  origLen : Nat
  blockSize : Nat
  decoder : Option LTSession
  pkts : Nat
  deriving Repr

/-- Embeds the per-packet body of app.js `scanLoop`, from the header parse
onward (a frame whose fingerprint equals the previous one has already been
discarded): drop short packets and packets with `k < 1` or `block_size < 1`;
free the decoder and start a fresh session when there is none or the header
`run_id` differs; then feed the packet to the decoder. -/
def scanStep (nbrs : Nat → Nat → Nat → List Nat) (st : Option ScanSession)
    (pkt : List Nat) : Option ScanSession :=
  if pkt.length < 16 then st
  else
    let runId := hdrRunId pkt
    let k := hdrK pkt
    let origLen := hdrOrigLen pkt
    let blockSize := pkt.length - 16
    if k < 1 ∨ blockSize < 1 then st
    else
      let sess : ScanSession :=
        match st with
        | some s => if s.runId = runId then s else ⟨runId, k, origLen, blockSize, none, 0⟩
        | none => ⟨runId, k, origLen, blockSize, none, 0⟩
      some { sess with
        decoder := (pushPacket nbrs sess.decoder pkt).1
        pkts := sess.pkts + 1 }

/-- Pointwise equality of decoder states as the spec observes them: identical
session anchors, recovered blocks, decoded flags and counter, and the same
unresolved packets up to list membership (the unresolved container is a set
of `(neighbors, data)` records; duplicates carry no information). -/
def sessionEquiv (a b : LTSession) : Prop :=
  a.runId = b.runId ∧ a.k = b.k ∧ a.blockSize = b.blockSize ∧
  a.origLen = b.origLen ∧ a.blocks = b.blocks ∧ a.decoded = b.decoded ∧
  a.decodedCount = b.decodedCount ∧
  (∀ x ∈ a.unresolved, x ∈ b.unresolved) ∧
  (∀ x ∈ b.unresolved, x ∈ a.unresolved)

/-- Lift `sessionEquiv` to the optional decoder state. -/
def optSessionEquiv : Option LTSession → Option LTSession → Prop
  | none, none => True
  | some a, some b => sessionEquiv a b
  | _, _ => False

end Qram

namespace Qram

/-! ## Supporting lemmas -/

theorem nthB_set_true (l : List Bool) (j i : Nat)
    (h : nthB l i = true) : nthB (l.set j true) i = true := by
  induction l generalizing j i with
  | nil => simp [nthB] at h
  | cons a t ih =>
    cases j with
    | zero =>
      cases i with
      | zero => simp [List.set, nthB]
      | succ i => simpa [List.set, nthB] using h
    | succ j =>
      cases i with
      | zero => simpa [List.set, nthB] using h
      | succ i =>
        simp only [List.set, nthB] at h ⊢
        exact ih j i h

theorem nthB_set_self (l : List Bool) (j : Nat) (h : j < l.length) :
    nthB (l.set j true) j = true := by
  induction l generalizing j with
  | nil => simp at h
  | cons a t ih =>
    cases j with
    | zero => simp [List.set, nthB]
    | succ j =>
      simp only [List.set, nthB]
      exact ih j (by simpa using h)

theorem resolveLoop_runId (fuel : Nat) :
    ∀ (s : LTSession) (q : List (Nat × List Nat)),
      (resolveLoop fuel s q).runId = s.runId := by
  induction fuel with
  | zero => intro s q; simp only [resolveLoop]
  | succ f ih =>
    intro s q
    match q with
    | [] => simp only [resolveLoop]
    | (j, d) :: rest =>
      simp only [resolveLoop]
      by_cases h : nthB s.decoded j = true
      · rw [if_pos h]; exact ih s rest
      · rw [if_neg h]; exact ih _ _

theorem resolveLoop_k (fuel : Nat) :
    ∀ (s : LTSession) (q : List (Nat × List Nat)),
      (resolveLoop fuel s q).k = s.k := by
  induction fuel with
  | zero => intro s q; simp only [resolveLoop]
  | succ f ih =>
    intro s q
    match q with
    | [] => simp only [resolveLoop]
    | (j, d) :: rest =>
      simp only [resolveLoop]
      by_cases h : nthB s.decoded j = true
      · rw [if_pos h]; exact ih s rest
      · rw [if_neg h]; exact ih _ _

theorem resolveLoop_decoded_mono (fuel : Nat) :
    ∀ (s : LTSession) (q : List (Nat × List Nat)) (i : Nat),
      nthB s.decoded i = true →
      nthB (resolveLoop fuel s q).decoded i = true := by
  induction fuel with
  | zero => intro s q i h; simpa only [resolveLoop] using h
  | succ f ih =>
    intro s q i h
    match q with
    | [] => simpa only [resolveLoop] using h
    | (j, d) :: rest =>
      simp only [resolveLoop]
      by_cases hj : nthB s.decoded j = true
      · rw [if_pos hj]; exact ih s rest i h
      · rw [if_neg hj]; exact ih _ _ i (nthB_set_true _ _ _ h)

theorem resolveLoop_head_decodes (s : LTSession) (j : Nat) (d : List Nat)
    (fuel : Nat) (hj : nthB s.decoded j = false)
    (hlt : j < s.decoded.length) :
    nthB (resolveLoop (fuel + 1) s [(j, d)]).decoded j = true := by
  simp only [resolveLoop]
  rw [if_neg (by rw [hj]; exact Bool.false_ne_true)]
  exact resolveLoop_decoded_mono _ _ _ _ (nthB_set_self _ _ hlt)

theorem selectSession_runId (st : Option LTSession) (pkt : List Nat) :
    (selectSession st pkt).runId = hdrRunId pkt := by
  match st with
  | none => simp [selectSession, initSession]
  | some s =>
    by_cases h : s.runId = hdrRunId pkt
    · simp [selectSession, h]
    · simp [selectSession, h, initSession]

theorem selectSession_wf (st : Option LTSession) (pkt : List Nat)
    (hwf : ∀ s, st = some s → s.decoded.length = s.k) :
    (selectSession st pkt).decoded.length = (selectSession st pkt).k := by
  match st with
  | none => simp [selectSession, initSession]
  | some s =>
    by_cases h : s.runId = hdrRunId pkt
    · simpa [selectSession, h] using hwf s rfl
    · simp [selectSession, h, initSession]

theorem selectSession_some (s : LTSession) (pkt : List Nat)
    (h : s.runId = hdrRunId pkt) : selectSession (some s) pkt = s := by
  simp [selectSession, h]

theorem pushStep_done (nbrs : Nat → Nat → Nat → List Nat) (s : LTSession)
    (pkt : List Nat) (h : s.decodedCount = s.k) :
    pushStep nbrs s pkt = (s, true) := by
  simp only [pushStep, if_pos h]

theorem pushStep_m0 (nbrs : Nat → Nat → Nat → List Nat) (s : LTSession)
    (pkt : List Nat) (h : ¬ s.decodedCount = s.k)
    (hrem : substituteRemaining s (nbrs s.k (hdrRunId pkt) (hdrSeq pkt)) = []) :
    pushStep nbrs s pkt = (s, false) := by
  simp only [pushStep, if_neg h, hrem]
  simp [h]

theorem pushStep_m1 (nbrs : Nat → Nat → Nat → List Nat) (s : LTSession)
    (pkt : List Nat) (j : Nat) (h : ¬ s.decodedCount = s.k)
    (hrem : substituteRemaining s (nbrs s.k (hdrRunId pkt) (hdrSeq pkt)) = [j]) :
    pushStep nbrs s pkt =
      ((resolveLoop (s.unresolved.length + s.k + 1) s
          [(j, substituteResidue s (nbrs s.k (hdrRunId pkt) (hdrSeq pkt))
            (pkt.drop 16))]),
        decide ((resolveLoop (s.unresolved.length + s.k + 1) s
          [(j, substituteResidue s (nbrs s.k (hdrRunId pkt) (hdrSeq pkt))
            (pkt.drop 16))]).decodedCount =
          (resolveLoop (s.unresolved.length + s.k + 1) s
            [(j, substituteResidue s (nbrs s.k (hdrRunId pkt) (hdrSeq pkt))
              (pkt.drop 16))]).k)) := by
  simp only [pushStep, if_neg h, hrem]

theorem pushStep_m2 (nbrs : Nat → Nat → Nat → List Nat) (s : LTSession)
    (pkt : List Nat) (j1 j2 : Nat) (tl : List Nat)
    (h : ¬ s.decodedCount = s.k)
    (hrem : substituteRemaining s (nbrs s.k (hdrRunId pkt) (hdrSeq pkt)) =
      j1 :: j2 :: tl) :
    pushStep nbrs s pkt =
      ({ s with unresolved := s.unresolved ++
          [(j1 :: j2 :: tl,
            substituteResidue s (nbrs s.k (hdrRunId pkt) (hdrSeq pkt))
              (pkt.drop 16))] }, false) := by
  simp only [pushStep, if_neg h, hrem]
  simp [h]

theorem pushPacket_short (nbrs : Nat → Nat → Nat → List Nat)
    (st : Option LTSession) (pkt : List Nat) (hlen : pkt.length < 17) :
    pushPacket nbrs st pkt = (st, ltIsDone st) := by
  simp only [pushPacket, if_pos hlen]

theorem pushPacket_long (nbrs : Nat → Nat → Nat → List Nat)
    (st : Option LTSession) (pkt : List Nat) (hlen : ¬ pkt.length < 17) :
    pushPacket nbrs st pkt =
      (some (pushStep nbrs (selectSession st pkt) pkt).1,
        (pushStep nbrs (selectSession st pkt) pkt).2) := by
  simp only [pushPacket, if_neg hlen]

theorem push_push_eq_or_append (nbrs : Nat → Nat → Nat → List Nat)
    (st : Option LTSession) (pkt : List Nat)
    (hnb : ∀ k r q i, i ∈ nbrs k r q → i < k)
    (hwf : ∀ s, st = some s → s.decoded.length = s.k) :
    pushPacket nbrs (pushPacket nbrs st pkt).1 pkt = pushPacket nbrs st pkt ∨
    ∃ (s : LTSession) (P : List Nat × List Nat), pushPacket nbrs st pkt =
        (some { s with unresolved := s.unresolved ++ [P] }, false) ∧
      ∀ m, pushPacket nbrs
          (some { s with unresolved := s.unresolved ++ List.replicate (m + 1) P })
          pkt =
        (some { s with unresolved := s.unresolved ++ List.replicate (m + 2) P },
          false) := by
  by_cases hlen : pkt.length < 17
  · left
    rw [pushPacket_short nbrs st pkt hlen]
    exact pushPacket_short nbrs st pkt hlen
  have hs0run : (selectSession st pkt).runId = hdrRunId pkt :=
    selectSession_runId st pkt
  have hs0wf : (selectSession st pkt).decoded.length = (selectSession st pkt).k :=
    selectSession_wf st pkt hwf
  by_cases hdone : (selectSession st pkt).decodedCount = (selectSession st pkt).k
  · left
    rw [pushPacket_long nbrs st pkt hlen,
      pushStep_done nbrs (selectSession st pkt) pkt hdone]
    show pushPacket nbrs (some (selectSession st pkt)) pkt = _
    rw [pushPacket_long nbrs (some (selectSession st pkt)) pkt hlen,
      selectSession_some (selectSession st pkt) pkt hs0run,
      pushStep_done nbrs (selectSession st pkt) pkt hdone]
  rcases hremc : substituteRemaining (selectSession st pkt)
      (nbrs (selectSession st pkt).k (hdrRunId pkt) (hdrSeq pkt)) with
    _ | ⟨j, _ | ⟨j2, tl⟩⟩
  · left
    rw [pushPacket_long nbrs st pkt hlen,
      pushStep_m0 nbrs (selectSession st pkt) pkt hdone hremc]
    show pushPacket nbrs (some (selectSession st pkt)) pkt = _
    rw [pushPacket_long nbrs (some (selectSession st pkt)) pkt hlen,
      selectSession_some (selectSession st pkt) pkt hs0run,
      pushStep_m0 nbrs (selectSession st pkt) pkt hdone hremc]
  · -- one remaining neighbor: the packet resolves and cascades; a second
    -- copy substitutes to nothing and is dropped
    left
    rw [pushPacket_long nbrs st pkt hlen,
      pushStep_m1 nbrs (selectSession st pkt) pkt j hdone hremc]
    set s2 := resolveLoop ((selectSession st pkt).unresolved.length +
        (selectSession st pkt).k + 1) (selectSession st pkt)
        [(j, substituteResidue (selectSession st pkt)
          (nbrs (selectSession st pkt).k (hdrRunId pkt) (hdrSeq pkt))
          (pkt.drop 16))] with hs2def
    have hs2run : s2.runId = hdrRunId pkt := by
      rw [hs2def, resolveLoop_runId]; exact hs0run
    have hs2k : s2.k = (selectSession st pkt).k := by
      rw [hs2def]; exact resolveLoop_k _ _ _
    show pushPacket nbrs (some s2) pkt = _
    rw [pushPacket_long nbrs (some s2) pkt hlen, selectSession_some s2 pkt hs2run]
    by_cases hd2 : s2.decodedCount = s2.k
    · rw [pushStep_done nbrs s2 pkt hd2, decide_eq_true hd2]
    · have hjmem : j ∈ nbrs (selectSession st pkt).k (hdrRunId pkt) (hdrSeq pkt) := by
        have hm : j ∈ substituteRemaining (selectSession st pkt)
            (nbrs (selectSession st pkt).k (hdrRunId pkt) (hdrSeq pkt)) := by
          rw [hremc]; exact List.mem_singleton_self j
        exact List.mem_of_mem_filter hm
      have hjundec : nthB (selectSession st pkt).decoded j = false := by
        have hm : j ∈ substituteRemaining (selectSession st pkt)
            (nbrs (selectSession st pkt).k (hdrRunId pkt) (hdrSeq pkt)) := by
          rw [hremc]; exact List.mem_singleton_self j
        rw [substituteRemaining] at hm
        have hp := List.of_mem_filter hm
        cases hx : nthB (selectSession st pkt).decoded j
        · rfl
        · rw [hx] at hp; exact absurd hp (by decide)
      have hrem2 : substituteRemaining s2
          (nbrs s2.k (hdrRunId pkt) (hdrSeq pkt)) = [] := by
        rw [hs2k, substituteRemaining, List.filter_eq_nil_iff]
        intro i hi
        have hdectrue : nthB s2.decoded i = true := by
          by_cases hdec : nthB (selectSession st pkt).decoded i = true
          · rw [hs2def]; exact resolveLoop_decoded_mono _ _ _ _ hdec
          · have hdecf : nthB (selectSession st pkt).decoded i = false := by
              cases hx : nthB (selectSession st pkt).decoded i
              · rfl
              · exact absurd hx hdec
            have hif : i ∈ substituteRemaining (selectSession st pkt)
                (nbrs (selectSession st pkt).k (hdrRunId pkt) (hdrSeq pkt)) := by
              rw [substituteRemaining]
              refine List.mem_filter.mpr ⟨hi, by simp [hdecf]⟩
            rw [hremc, List.mem_singleton] at hif
            subst hif
            rw [hs2def]
            exact resolveLoop_head_decodes _ _ _ _ hjundec
              (by rw [hs0wf]; exact hnb _ _ _ _ hjmem)
        simp [hdectrue]
      rw [pushStep_m0 nbrs s2 pkt hd2 hrem2, decide_eq_false hd2]
  · -- two or more remaining neighbors: the packet is stored; duplicates
    -- append identical records
    right
    set PP : List Nat × List Nat := (j :: j2 :: tl,
      substituteResidue (selectSession st pkt)
        (nbrs (selectSession st pkt).k (hdrRunId pkt) (hdrSeq pkt))
        (pkt.drop 16)) with hPP
    refine ⟨selectSession st pkt, PP, ?_, ?_⟩
    · rw [pushPacket_long nbrs st pkt hlen,
        pushStep_m2 nbrs (selectSession st pkt) pkt j j2 tl hdone hremc]
    · intro m
      rw [pushPacket_long nbrs (some { (selectSession st pkt) with
          unresolved := (selectSession st pkt).unresolved ++
            List.replicate (m + 1) PP }) pkt hlen]
      rw [selectSession_some { (selectSession st pkt) with
          unresolved := (selectSession st pkt).unresolved ++
            List.replicate (m + 1) PP } pkt hs0run]
      rw [pushStep_m2 nbrs { (selectSession st pkt) with
          unresolved := (selectSession st pkt).unresolved ++
            List.replicate (m + 1) PP } pkt j j2 tl hdone hremc]
      show (some { (selectSession st pkt) with
          unresolved := ((selectSession st pkt).unresolved ++
            List.replicate (m + 1) PP) ++ [PP] }, false) = _
      rw [List.append_assoc, ← List.replicate_succ' (m + 1)]

theorem optSessionEquiv_refl (o : Option LTSession) : optSessionEquiv o o := by
  cases o with
  | none => trivial
  | some s => exact ⟨rfl, rfl, rfl, rfl, rfl, rfl, rfl, fun x hx => hx, fun x hx => hx⟩

/-! ## Claim theorems -/

/-- C6: the decoder is idempotent on duplicate packets — for every decoder
state and every packet, pushing the packet `n` times (any `n ≥ 1`) leaves
the decoder with the same decoded blocks, the same `decoded_count`, the same
unresolved set, and the same completion flag as pushing it exactly once.
The neighbor reconstruction is any function returning indices below `k`
(spec §4.3), and the state satisfies the decoder's structural invariant that
the decoded bit-array has `k` entries. -/
theorem lt_decoder_duplicate_idempotent (nbrs : Nat → Nat → Nat → List Nat)
    (st : Option LTSession) (pkt : List Nat) (n : Nat) (hn : 1 ≤ n)
    (hnb : ∀ k r q i, i ∈ nbrs k r q → i < k)
    (hwf : ∀ s, st = some s → s.decoded.length = s.k) :
    optSessionEquiv (pushN nbrs st pkt n).1 (pushPacket nbrs st pkt).1 ∧
    (pushN nbrs st pkt n).2 = (pushPacket nbrs st pkt).2 := by
  obtain ⟨m, rfl⟩ : ∃ m, n = m + 1 := ⟨n - 1, by omega⟩
  rcases push_push_eq_or_append nbrs st pkt hnb hwf with hfix | ⟨s, P, h1, hfam⟩
  · have key : ∀ m2, pushN nbrs st pkt (m2 + 1) = pushPacket nbrs st pkt := by
      intro m2
      induction m2 with
      | zero => rfl
      | succ k ih =>
        show pushPacket nbrs (pushN nbrs st pkt (k + 1)).1 pkt =
          pushPacket nbrs st pkt
        rw [ih]
        exact hfix
    rw [key m]
    exact ⟨optSessionEquiv_refl _, rfl⟩
  · have key : ∀ m2, pushN nbrs st pkt (m2 + 1) =
        (some { s with unresolved := s.unresolved ++ List.replicate (m2 + 1) P },
          false) := by
      intro m2
      induction m2 with
      | zero =>
        show pushPacket nbrs (pushN nbrs st pkt 0).1 pkt = _
        rw [show (pushN nbrs st pkt 0).1 = st from rfl, h1, List.replicate_one]
      | succ k ih =>
        show pushPacket nbrs (pushN nbrs st pkt (k + 1)).1 pkt = _
        rw [ih]
        exact hfam k
    rw [key m, h1]
    refine ⟨?_, rfl⟩
    show sessionEquiv
      { s with unresolved := s.unresolved ++ List.replicate (m + 1) P }
      { s with unresolved := s.unresolved ++ [P] }
    refine ⟨rfl, rfl, rfl, rfl, rfl, rfl, rfl, ?_, ?_⟩
    · intro x hx
      simp only [List.mem_append, List.mem_replicate] at hx
      simp only [List.mem_append, List.mem_singleton]
      rcases hx with hx | ⟨_, hx⟩
      · exact Or.inl hx
      · exact Or.inr hx
    · intro x hx
      simp only [List.mem_append, List.mem_singleton] at hx
      simp only [List.mem_append, List.mem_replicate]
      rcases hx with hx | hx
      · exact Or.inl hx
      · exact Or.inr ⟨by omega, hx⟩

/-- C6 witness: a fresh decoder fed the same degree-1 packet of a 2-block
session three times is, up to the unresolved set, in the state reached after
one push, with the same completion flag. -/
theorem lt_decoder_duplicate_idempotent_witness :
    optSessionEquiv
      (pushN (fun k _ _ => if k = 0 then [] else [0]) none
        [0, 0, 0, 5, 0, 0, 0, 2, 0, 0, 0, 2, 0, 0, 0, 0, 14] 3).1
      (pushPacket (fun k _ _ => if k = 0 then [] else [0]) none
        [0, 0, 0, 5, 0, 0, 0, 2, 0, 0, 0, 2, 0, 0, 0, 0, 14]).1 ∧
    (pushN (fun k _ _ => if k = 0 then [] else [0]) none
      [0, 0, 0, 5, 0, 0, 0, 2, 0, 0, 0, 2, 0, 0, 0, 0, 14] 3).2 =
    (pushPacket (fun k _ _ => if k = 0 then [] else [0]) none
      [0, 0, 0, 5, 0, 0, 0, 2, 0, 0, 0, 2, 0, 0, 0, 0, 14]).2 :=
  lt_decoder_duplicate_idempotent (fun k _ _ => if k = 0 then [] else [0])
    none [0, 0, 0, 5, 0, 0, 0, 2, 0, 0, 0, 2, 0, 0, 0, 0, 14] 3 (by omega)
    (by
      intro k r q i hi
      by_cases hk : k = 0
      · simp [hk] at hi
      · simp [hk] at hi
        omega)
    (fun s h => Option.noConfusion h)

/-- C9: for every input shorter than 10 bytes, both decompression entry
points (`maybeDecompress` of qram-compress.js and `decompress` of
compress.js) return the input bytes unchanged and report it as not
compressed, even when the input begins with the QRAMC magic prefix. -/
theorem short_input_decompress_passthrough
    (gz : List Nat → Option (List Nat)) (d : List Nat)
    (h : d.length < 10) :
    maybeDecompress gz d = Except.ok ⟨d, false, d.length, false⟩ ∧
    decompress gz d = Except.ok d := by
  constructor
  · simp [maybeDecompress, isCompressed, h]
  · simp [decompress, h]

/-- C9 witness: a 9-byte input carrying the full QRAMC magic prefix is passed
through unchanged by both entry points. -/
theorem short_input_decompress_passthrough_witness :
    ([0x51, 0x52, 0x41, 0x4D, 0x43, 1, 0, 0, 0] : List Nat).length < 10 ∧
    maybeDecompress (fun _ => none) [0x51, 0x52, 0x41, 0x4D, 0x43, 1, 0, 0, 0] =
      Except.ok ⟨[0x51, 0x52, 0x41, 0x4D, 0x43, 1, 0, 0, 0], false, 9, false⟩ ∧
    decompress (fun _ => none) [0x51, 0x52, 0x41, 0x4D, 0x43, 1, 0, 0, 0] =
      Except.ok [0x51, 0x52, 0x41, 0x4D, 0x43, 1, 0, 0, 0] :=
  ⟨by decide,
    (short_input_decompress_passthrough (fun _ => none) _ (by decide)).1,
    (short_input_decompress_passthrough (fun _ => none) _ (by decide)).2⟩

/-- C7: for every input beginning with the QRAMC magic, at least 10 bytes
long, whose algo byte (byte 5) is not 1, both decompression entry points
fail with an unknown-algorithm error surfaced to the caller, whatever the
gzip backend would return. -/
theorem unknown_algo_is_error
    (gz : List Nat → Option (List Nat)) (d : List Nat)
    (hlen : 10 ≤ d.length) (hmagic : d.take 5 = magicC)
    (halgo : d.getD 5 0 ≠ 1) :
    maybeDecompress gz d = Except.error (DecompressErr.unknownAlgo (d.getD 5 0)) ∧
    decompress gz d = Except.error (DecompressErr.unknownAlgo (d.getD 5 0)) := by
  have hnlt : ¬ d.length < 10 := by omega
  have halgo2 : d[5]?.getD 0 ≠ 1 := by simpa [List.getD] using halgo
  constructor
  · simp [maybeDecompress, isCompressed, hnlt, hmagic, halgo2, List.getD]
  · simp [decompress, hnlt, hmagic, halgo2, List.getD]

/-- C7 witness: a 10-byte QRAMC envelope with algo byte 2 is rejected by both
entry points with the unknown-algorithm error. -/
theorem unknown_algo_is_error_witness :
    10 ≤ ([0x51, 0x52, 0x41, 0x4D, 0x43, 2, 0, 0, 0, 7] : List Nat).length ∧
    maybeDecompress (fun _ => some [])
        [0x51, 0x52, 0x41, 0x4D, 0x43, 2, 0, 0, 0, 7] =
      Except.error (DecompressErr.unknownAlgo 2) ∧
    decompress (fun _ => some [])
        [0x51, 0x52, 0x41, 0x4D, 0x43, 2, 0, 0, 0, 7] =
      Except.error (DecompressErr.unknownAlgo 2) :=
  ⟨by decide,
    (unknown_algo_is_error (fun _ => some []) _ (by decide) (by decide) (by decide)).1,
    (unknown_algo_is_error (fun _ => some []) _ (by decide) (by decide) (by decide)).2⟩

/-- C10: the index.html decoder's file-envelope detector returns false for
every payload shorter than 8 bytes; in particular the minimal 7-byte file
envelope (QRAMF magic, zero name length, empty name and body) is never
recognized as a file transfer, so the completion path hands it to the
plain-text branch. -/
theorem isFileTransfer_short_false :
    (∀ d : List Nat, d.length < 8 → isFileTransfer d = false) ∧
    isFileTransfer [0x51, 0x52, 0x41, 0x4D, 0x46, 0, 0] = false := by
  constructor
  · intro d h; simp [isFileTransfer, h]
  · decide

/-- C10 witness: the detector applied to the concrete minimal envelope. -/
theorem isFileTransfer_short_false_witness :
    isFileTransfer [0x51, 0x52, 0x41, 0x4D, 0x46, 0, 0] = false :=
  isFileTransfer_short_false.1 [0x51, 0x52, 0x41, 0x4D, 0x46, 0, 0] (by decide)

/-- C5: the file envelope round-trips — for every filename whose UTF-8
encoding is at most 65535 bytes and every byte sequence,
`parseFilePayload (buildFilePayload name data)` succeeds and returns exactly
the name bytes and the data. -/
theorem file_envelope_roundtrip (nameBytes fileBytes : List Nat)
    (hname : nameBytes.length ≤ 65535) :
    parseFilePayload (buildFilePayload nameBytes fileBytes) =
      some (nameBytes, fileBytes) := by
  have hmod : nameBytes.length % 65536 = nameBytes.length :=
    Nat.mod_eq_of_lt (by omega)
  have hlen : (buildFilePayload nameBytes fileBytes).length =
      7 + nameBytes.length + fileBytes.length := by
    simp [buildFilePayload, magicF]; omega
  have hdrop : (buildFilePayload nameBytes fileBytes).drop 7 =
      nameBytes ++ fileBytes := by
    simp [buildFilePayload, magicF]
  have hfnl : fileNameLen (buildFilePayload nameBytes fileBytes) =
      nameBytes.length := by
    simp [fileNameLen, buildFilePayload, magicF, List.getD, hmod]
    omega
  have htake : (buildFilePayload nameBytes fileBytes).take 5 = magicF := by
    simp [buildFilePayload, magicF]
  rw [parseFilePayload, if_neg (by omega), if_neg (by simp [htake]), hfnl,
    if_neg (by omega)]
  have h2 : (buildFilePayload nameBytes fileBytes).drop (7 + nameBytes.length) =
      fileBytes := by
    rw [← List.drop_drop, hdrop, List.drop_left]
  rw [hdrop, List.take_left, h2]

/-- C5 witness: a concrete envelope for the 5-byte name a.txt and a 3-byte
body round-trips. -/
theorem file_envelope_roundtrip_witness :
    parseFilePayload (buildFilePayload [97, 46, 116, 120, 116] [1, 2, 3]) =
      some ([97, 46, 116, 120, 116], [1, 2, 3]) :=
  file_envelope_roundtrip [97, 46, 116, 120, 116] [1, 2, 3] (by decide)

/-- C8: the file-envelope unwrap returns `none` exactly when the input does
not begin with the QRAMF magic or when `7 + name_len` (with `name_len` the
big-endian u16 at bytes 5..7) exceeds the input length; on success the name
has exactly `name_len` bytes and name and remainder partition the input
after the 7-byte header, so no read goes past the end of the input. -/
theorem parseFilePayload_none_iff (bytes : List Nat) :
    (parseFilePayload bytes = none ↔
      bytes.take 5 ≠ magicF ∨ bytes.length < 7 + fileNameLen bytes) ∧
    (∀ nm dat, parseFilePayload bytes = some (nm, dat) →
      nm.length = fileNameLen bytes ∧ nm ++ dat = bytes.drop 7) := by
  by_cases h7 : bytes.length < 7
  · constructor
    · simp only [parseFilePayload, if_pos h7, true_iff]
      right; omega
    · intro nm dat h
      rw [parseFilePayload, if_pos h7] at h
      exact absurd h (by simp)
  by_cases hmg : bytes.take 5 = magicF
  · by_cases hnl : bytes.length < 7 + fileNameLen bytes
    · constructor
      · rw [parseFilePayload, if_neg h7, if_neg (by simp [hmg]), if_pos hnl]
        simp [hnl]
      · intro nm dat h
        rw [parseFilePayload, if_neg h7, if_neg (by simp [hmg]), if_pos hnl] at h
        exact absurd h (by simp)
    · constructor
      · rw [parseFilePayload, if_neg h7, if_neg (by simp [hmg]), if_neg hnl]
        simp [hmg, hnl]
      · intro nm dat h
        rw [parseFilePayload, if_neg h7, if_neg (by simp [hmg]), if_neg hnl] at h
        have hnm : nm = (bytes.drop 7).take (fileNameLen bytes) := by
          injection h with h2; exact (congrArg Prod.fst h2).symm
        have hdat : dat = bytes.drop (7 + fileNameLen bytes) := by
          injection h with h2; exact (congrArg Prod.snd h2).symm
        constructor
        · rw [hnm]
          simp [List.length_take, List.length_drop]
          omega
        · rw [hnm, hdat]
          exact List.drop_take_append_drop bytes 7 (fileNameLen bytes)
  · constructor
    · rw [parseFilePayload, if_neg h7, if_pos (by simp [hmg])]
      simp [hmg]
    · intro nm dat h
      rw [parseFilePayload, if_neg h7, if_pos (by simp [hmg])] at h
      exact absurd h (by simp)

/-- C8 witness: on a 6-byte QRAMF prefix the unwrap declines (truncated), and
on a well-formed 9-byte envelope it returns the in-bounds name and body. -/
theorem parseFilePayload_none_iff_witness :
    parseFilePayload [0x51, 0x52, 0x41, 0x4D, 0x46, 9] = none ∧
    ([97] : List Nat).length =
        fileNameLen [0x51, 0x52, 0x41, 0x4D, 0x46, 0, 1, 97, 5] ∧
      [97] ++ [5] = ([0x51, 0x52, 0x41, 0x4D, 0x46, 0, 1, 97, 5] : List Nat).drop 7 :=
  ⟨(parseFilePayload_none_iff [0x51, 0x52, 0x41, 0x4D, 0x46, 9]).1.mpr
      (by right; decide),
    (parseFilePayload_none_iff [0x51, 0x52, 0x41, 0x4D, 0x46, 0, 1, 97, 5]).2
      [97] [5] (by decide)⟩

theorem maybeCompress_eq (gz : List Nat → Option (List Nat))
    (payload c : List Nat) (hgz : gz payload = some c) :
    maybeCompress gz payload =
      (if 20 * (10 + c.length) ≤ 19 * payload.length ∧
          10 + c.length + 50 ≤ payload.length then
        ⟨buildEnvelope payload.length c, true, payload.length, 10 + c.length⟩
      else ⟨payload, false, payload.length, payload.length⟩) := by
  simp only [maybeCompress, hgz]
  by_cases h50 : payload.length < 50
  · rw [if_pos h50, if_neg (by omega)]
  · rw [if_neg h50]
    by_cases h1 : 20 * (10 + c.length) ≤ 19 * payload.length
    · by_cases h2 : 10 + c.length + 50 ≤ payload.length
      · rw [if_neg (by omega), if_pos ⟨h1, h2⟩]
      · rw [if_pos (by omega), if_neg (by omega)]
    · rw [if_pos (by omega), if_neg (by omega)]

theorem compress_eq (gz : List Nat → Option (List Nat))
    (payload c : List Nat) (hgz : gz payload = some c) :
    compress gz payload =
      (if 20 * (10 + c.length) < 19 * payload.length ∧
          10 + c.length + 50 ≤ payload.length then
        buildEnvelope payload.length c
      else payload) := by
  simp only [compress, hgz]
  by_cases h50 : payload.length < 50
  · rw [if_pos h50, if_neg (by omega)]
  · rw [if_neg h50]
    by_cases h1 : 20 * (10 + c.length) < 19 * payload.length
    · by_cases h2 : 10 + c.length + 50 ≤ payload.length
      · rw [if_neg (by omega), if_pos ⟨h1, h2⟩]
      · rw [if_pos (by omega), if_neg (by omega)]
    · rw [if_pos (by omega), if_neg (by omega)]

/-- C2 counterexample: at a payload of 1000 bytes whose gzip output has 940
bytes, the envelope is exactly 95% of the original (`envelope_size /
len(payload) = 0.95 ≤ 0.95`) and saves exactly 50 bytes, so the claim says
the envelope is returned; yet the compress.js `compress` operation (its skip
test is `envelopeLen / data.length >= 0.95`) returns the input unchanged. -/
theorem compress_ratio_boundary_counterexample :
    compress (fun _ => some (List.replicate 940 1)) (List.replicate 1000 2) =
        List.replicate 1000 2 ∧
    100 * (10 + (List.replicate 940 (1 : Nat)).length) ≤
        95 * (List.replicate 1000 (2 : Nat)).length ∧
    (List.replicate 1000 (2 : Nat)).length -
        (10 + (List.replicate 940 (1 : Nat)).length) ≥ 50 ∧
    compress (fun _ => some (List.replicate 940 1)) (List.replicate 1000 2) ≠
      buildEnvelope (List.replicate 1000 (2 : Nat)).length (List.replicate 940 1) := by
  have hc : compress (fun _ => some (List.replicate 940 1))
      (List.replicate 1000 2) = List.replicate 1000 2 := by
    rw [compress_eq (fun _ => some (List.replicate 940 1))
      (List.replicate 1000 2) (List.replicate 940 1) rfl]
    rw [if_neg (by simp only [List.length_replicate]; omega)]
  refine ⟨hc, by simp only [List.length_replicate]; omega,
    by simp only [List.length_replicate]; omega, ?_⟩
  rw [hc]
  intro h
  have h2 := congrArg List.length h
  simp only [List.length_replicate, buildEnvelope, be32Bytes, magicC,
    List.length_append, List.length_cons, List.length_nil] at h2
  omega

/-- C2 (amended): for every payload and every successful gzip result, the
qram-compress.js `maybeCompress` keeps the QRAMC envelope exactly when
`envelope_size / len(payload) ≤ 0.95` and `len(payload) - envelope_size ≥
50`, while the compress.js `compress` variant keeps it exactly when the
ratio bound is strict (`envelope_size / len(payload) < 0.95`) and the saving
is at least 50 bytes; in every other case (including every payload shorter
than 50 bytes) each returns the input payload unchanged. -/
theorem compress_policy_characterization
    (gz : List Nat → Option (List Nat)) (payload c : List Nat)
    (hgz : gz payload = some c) :
    maybeCompress gz payload =
      (if 20 * (10 + c.length) ≤ 19 * payload.length ∧
          10 + c.length + 50 ≤ payload.length then
        ⟨buildEnvelope payload.length c, true, payload.length, 10 + c.length⟩
      else ⟨payload, false, payload.length, payload.length⟩) ∧
    compress gz payload =
      (if 20 * (10 + c.length) < 19 * payload.length ∧
          10 + c.length + 50 ≤ payload.length then
        buildEnvelope payload.length c
      else payload) :=
  ⟨maybeCompress_eq gz payload c hgz, compress_eq gz payload c hgz⟩

/-- C2 witness: a 100-byte payload gzipping to 40 bytes (envelope 50 bytes,
ratio 0.5, saving 50) is kept by both variants; evaluating the
characterization at it. -/
theorem compress_policy_characterization_witness :
    (fun _ => some (List.replicate 40 1) : List Nat → Option (List Nat))
        (List.replicate 100 2) = some (List.replicate 40 1) ∧
    maybeCompress (fun _ => some (List.replicate 40 1)) (List.replicate 100 2) =
      (if 20 * (10 + (List.replicate 40 (1 : Nat)).length) ≤
            19 * (List.replicate 100 (2 : Nat)).length ∧
          10 + (List.replicate 40 (1 : Nat)).length + 50 ≤
            (List.replicate 100 (2 : Nat)).length then
        ⟨buildEnvelope (List.replicate 100 (2 : Nat)).length (List.replicate 40 1),
          true, (List.replicate 100 (2 : Nat)).length,
          10 + (List.replicate 40 (1 : Nat)).length⟩
      else ⟨List.replicate 100 2, false, (List.replicate 100 (2 : Nat)).length,
        (List.replicate 100 (2 : Nat)).length⟩) :=
  ⟨rfl, (compress_policy_characterization (fun _ => some (List.replicate 40 1))
    (List.replicate 100 2) (List.replicate 40 1) rfl).1⟩

/-- C3 counterexample: a well-formed algo-1 QRAMC envelope declaring
`orig_len = 5` whose body decompresses (via the modelled backend) to 3
bytes; the compress.js `decompress` operation fails with a length-mismatch
error instead of returning the decompressed bytes. -/
theorem decompress_length_mismatch_counterexample :
    decompress (fun _ => some [1, 2, 3])
        [0x51, 0x52, 0x41, 0x4D, 0x43, 1, 0, 0, 0, 5, 9] =
      Except.error (DecompressErr.lengthMismatch 5 3) := by
  rfl

/-- C3 (amended): for every QRAMC envelope with algo byte 1 whose body
decompresses to a length different from the declared `orig_len`, the
qram-compress.js `maybeDecompress` entry point does not fail — it flags the
warning and returns the decompressed bytes — while the compress.js
`decompress` variant fails with a length-mismatch error. -/
theorem length_mismatch_split_behavior
    (gunzip : List Nat → Option (List Nat)) (d out : List Nat)
    (hlen : 10 ≤ d.length) (hmagic : d.take 5 = magicC)
    (halgo : d.getD 5 0 = 1) (hgz : gunzip (d.drop 10) = some out)
    (hmm : out.length ≠ be32 d 6) :
    maybeDecompress gunzip d = Except.ok ⟨out, true, d.length, true⟩ ∧
    decompress gunzip d = Except.error
      (DecompressErr.lengthMismatch (be32 d 6) out.length) := by
  have hnlt : ¬ d.length < 10 := by omega
  have halgo2 : d[5]?.getD 0 = 1 := by simpa [List.getD] using halgo
  constructor
  · simp [maybeDecompress, isCompressed, hnlt, hmagic, halgo2, List.getD, hgz, hmm]
  · simp [decompress, hnlt, hmagic, halgo2, List.getD, hgz, hmm]

/-- C4: for every well-formed packet (full header, at least one payload byte,
`k ≥ 1`), the decode path keeps the current session and its decoder exactly
when the packet's `run_id` matches the session's; when there is no session
or the `run_id` differs, every piece of current state is discarded and a
fresh session is initialized from the packet's header fields — its decoder
state is that of a brand-new decoder fed only this packet. -/
theorem scan_session_switch (nbrs : Nat → Nat → Nat → List Nat)
    (st : Option ScanSession) (pkt : List Nat)
    (hlen : 17 ≤ pkt.length) (hk : 1 ≤ hdrK pkt) :
    (∀ s, st = some s → s.runId = hdrRunId pkt →
      scanStep nbrs st pkt = some { s with
        decoder := (pushPacket nbrs s.decoder pkt).1, pkts := s.pkts + 1 }) ∧
    ((st = none ∨ ∃ s, st = some s ∧ s.runId ≠ hdrRunId pkt) →
      scanStep nbrs st pkt = some ⟨hdrRunId pkt, hdrK pkt, hdrOrigLen pkt,
        pkt.length - 16, (pushPacket nbrs none pkt).1, 1⟩) := by
  have h16 : ¬ pkt.length < 16 := by omega
  have hbs : ¬ (hdrK pkt < 1 ∨ pkt.length - 16 < 1) := by omega
  constructor
  · intro s hst hrun
    subst hst
    rw [scanStep, if_neg h16, if_neg hbs]
    simp [hrun]
  · intro hsw
    rcases hsw with hst | ⟨s, hst, hrun⟩
    · subst hst
      rw [scanStep, if_neg h16, if_neg hbs]
    · subst hst
      rw [scanStep, if_neg h16, if_neg hbs]
      simp [hrun]

/-- C4 witness: a decoder holding session 9 sees a 17-byte packet of session
5 with `k = 2`; the state is discarded and reinitialized from the header. -/
theorem scan_session_switch_witness :
    scanStep (fun _ _ _ => [0])
        (some ⟨9, 3, 4, 1, none, 7⟩)
        [0, 0, 0, 5, 0, 0, 0, 2, 0, 0, 0, 2, 0, 0, 0, 0, 14] =
      some ⟨5, 2, 2, 1,
        (pushPacket (fun _ _ _ => [0]) none
          [0, 0, 0, 5, 0, 0, 0, 2, 0, 0, 0, 2, 0, 0, 0, 0, 14]).1, 1⟩ := by
  have h := (scan_session_switch (fun _ _ _ => [0])
    (some ⟨9, 3, 4, 1, none, 7⟩)
    [0, 0, 0, 5, 0, 0, 0, 2, 0, 0, 0, 2, 0, 0, 0, 0, 14]
    (by decide) (by decide)).2
    (Or.inr ⟨⟨9, 3, 4, 1, none, 7⟩, rfl, by decide⟩)
  rw [h]
  rfl

/-- C3 witness: the split behavior evaluated at the counterexample envelope,
where `maybeDecompress` succeeds with the warning flag set. -/
theorem length_mismatch_split_behavior_witness :
    maybeDecompress (fun _ => some [1, 2, 3])
        [0x51, 0x52, 0x41, 0x4D, 0x43, 1, 0, 0, 0, 5, 9] =
      Except.ok ⟨[1, 2, 3], true, 11, true⟩ ∧
    decompress (fun _ => some [1, 2, 3])
        [0x51, 0x52, 0x41, 0x4D, 0x43, 1, 0, 0, 0, 5, 9] =
      Except.error (DecompressErr.lengthMismatch 5 3) :=
  length_mismatch_split_behavior (fun _ => some [1, 2, 3])
    [0x51, 0x52, 0x41, 0x4D, 0x43, 1, 0, 0, 0, 5, 9] [1, 2, 3]
    (by decide) (by decide) (by decide) rfl (by decide)

end Qram
